import Mathlib

/-!
# Verification of the PhilipAI resilient batch dispatch pipeline

A shallow embedding of the logic-bearing parts of `src/App.tsx` and
`src/utils/timeFormatter.ts`:

* the dispatch-with-recovery state machine `processBatchWithFailover`
  (retry / failover over a model ladder) as a fuel-indexed transition
  function producing an explicit event trace;
* the response handling of the success path (`JSON.parse` + `data.map`),
  including the JavaScript semantics of property access on parsed JSON
  values and of `+` on possibly-missing fields;
* the orchestrator `startProcessing` (chunk planning, sequential chunk
  dispatch, abort on chunk failure);
* the caption-track merge (`[...prev, ...adjusted].sort(...)`, a stable
  sort by start time) and the SRT serializer `generateSRT`.

Numbers that are IEEE doubles in the source are modelled as rationals;
the claims under study only exercise exact arithmetic.
-/

namespace PhilipAI

/-! ## JSON values (the result of a successful `JSON.parse`) -/

inductive Json where
  | null
  | bool (b : Bool)
  | num (q : ℚ)
  | str (s : String)
  | arr (elems : List Json)
  | obj (fields : List (String × Json))

/-- JavaScript property access `v[name]` on a parsed JSON value:
objects yield the field when present, everything else (numbers, strings,
booleans, arrays) yields `undefined` (`none`).  Access on `null` throws
and is handled separately in `jsonToSegs`. -/
def getField (j : Json) (name : String) : Option Json :=
  match j with
  | .obj fields => (fields.find? (fun p => p.1 == name)).map Prod.snd
  | _ => none

/-- The value of the JavaScript expression `s.start + offset` as computed on
line 197 of `src/App.tsx`.  `undefined + number` is `NaN`; `null` and
booleans coerce to numbers; strings, arrays and objects make `+` act as
string concatenation (represented symbolically, since no claim inspects
the concatenated text). -/
inductive JSVal where
  | num (q : ℚ)
  | nan
  | strConcat (v : Json) (offset : ℚ)

def jsAdd (v : Option Json) (offset : ℚ) : JSVal :=
  match v with
  | none => .nan
  | some .null => .num offset
  | some (.bool b) => .num ((if b then 1 else 0) + offset)
  | some (.num q) => .num (q + offset)
  | some (.str s) => .strConcat (.str s) offset
  | some (.arr xs) => .strConcat (.arr xs) offset
  | some (.obj fs) => .strConcat (.obj fs) offset

/-- One element of `adjustedSegments` (src/App.tsx lines 195-200).  The
nondeterministic React key `id: Date.now() + Math.random() + i` is not
modelled; no claim depends on it. -/
structure AdjSeg where
  start_seconds : JSVal
  end_seconds : JSVal
  text : Option Json

/-- Embeds `data.map((s, i) => ({...}))` from src/App.tsx lines 195-200.  If the
parsed value is not an array, `.map` throws a `TypeError`; if an element is
`null`, the property access `s.start` throws a `TypeError`.  Otherwise each
element is converted without any validation of its fields. -/
def jsonToSegs (j : Json) (offset : ℚ) : Except String (List AdjSeg) :=
  match j with
  | .arr elems =>
    elems.mapM (fun s =>
      match s with
      | .null => .error "Cannot read properties of null (reading 'start')"
      | _ => .ok { start_seconds := jsAdd (getField s "start") offset
                   end_seconds := jsAdd (getField s "end") offset
                   text := getField s "text" })
  | _ => .error "data.map is not a function"

/-! ## Error classification (src/App.tsx line 207) -/

def listStartsWith : List Char → List Char → Bool
  | _, [] => true
  | [], _ :: _ => false
  | c :: cs, p :: ps => c == p && listStartsWith cs ps

def listContainsSub : List Char → List Char → Bool
  | [], pat => pat.isEmpty
  | c :: cs, pat => listStartsWith (c :: cs) pat || listContainsSub cs pat

/-- Embeds `errMsg.includes(pat)`. -/
def strContains (s pat : String) : Bool :=
  listContainsSub s.toList pat.toList

/-- Embeds `errMsg.includes("429") || errMsg.includes("RESOURCE_EXHAUSTED") ||
errMsg.includes("Quota")` (src/App.tsx line 207). -/
def isQuotaMsg (msg : String) : Bool :=
  strContains msg "429" || strContains msg "RESOURCE_EXHAUSTED" || strContains msg "Quota"

/-! ## The dispatch-with-recovery state machine
(`processBatchWithFailover`, src/App.tsx lines 131-242) -/

/-- Application status values (`ProcessingState.status`). -/
inductive StatusTag where
  | idle
  | connecting
  | streaming
  | completed
  | error (msg : String)
deriving DecidableEq

/-- Observable actions performed by one run of the state machine, in
program order: model selection, audio preparation (downsample + WAV +
base64, lines 157-159), status updates, the dispatch itself, analytics and
incident recording, failover counting, sleeps, and the caption-track
merge. -/
inductive Event where
  | setActiveModel (modelIdx : Nat)
  | prepare
  | setStatus (s : StatusTag)
  | dispatch (rung : Nat)
  | analyticsUpdate (modelIdx : Nat) (success : Bool)
  | incident (category : String)
  | failoverBump
  | wait (ms : Nat)
  | merge (segs : List AdjSeg)

/-- The outcome of one `ai.models.generateContent` attempt, as seen by the
machine: the call threw (`netError`), it returned but `JSON.parse` of
`response.text` threw (`replyBad`), or it returned and the text parsed to
the given JSON value (`reply`; an absent/empty `response.text` is
`reply (.arr [])` by the `|| "[]"` default on line 194). -/
inductive AttemptOutcome where
  | netError (msg : String)
  | replyBad (msg : String)
  | reply (j : Json)

/-- The environment of one chunk's dispatch-with-recovery run: the failover
sequence `ENGINE_MAP[selectedEngine]`, connectivity at the entry of the
`k`-th call, the outcome of the `k`-th dispatch attempt, and the chunk's
start offset. -/
structure MachineCtx where
  seq : List Nat
  online : Nat → Bool
  outcome : Nat → AttemptOutcome
  offset : ℚ

/-- Which recovery rule fires on a failed attempt, in the precedence order
of src/App.tsx lines 212-240: quota failover (line 213-223), same-rung
transient retry (line 226-230), exhaustion failover (line 233-238), give
up (line 240). -/
inductive Recovery where
  | quotaShift
  | sameRetry
  | faultShift
  | giveUp

def recoveryFor (len a r : Nat) (isQ : Bool) : Recovery :=
  if isQ && decide (a < len - 1) then .quotaShift
  else if decide (r < 1) && !isQ then .sameRetry
  else if decide (a < len - 1) then .faultShift
  else .giveUp

/-- One run of `processBatchWithFailover` from attempt index `a`, retry
count `r`, attempt counter `k`, with explicit fuel `g` bounding the
recursion depth (the recursion of the source always terminates; fuel
`2 * (seq.length - a) + 1` is an upper bound on its depth, see
`processBatchWithFailover`).  Returns the boolean result, the event trace,
and the next attempt counter. -/
def runDispatch (ctx : MachineCtx) : Nat → Nat → Nat → Nat → Bool × List Event × Nat
  | 0, _, _, k => (false, [], k)
  | g + 1, a, r, k =>
    if a ≥ ctx.seq.length then (false, [], k)
    else if ctx.online k = false then (false, [], k)
    else
      let m := ctx.seq.getD a 0
      let pre : List Event :=
        [.setActiveModel m, .prepare, .setStatus .streaming, .dispatch a]
      let attempt : Except (List Event × String) (List Event) :=
        match ctx.outcome k with
        | .netError msg => .error (pre, msg)
        | .replyBad msg => .error (pre ++ [.analyticsUpdate m true], msg)
        | .reply j =>
          match jsonToSegs j ctx.offset with
          | .ok segs => .ok (pre ++ [.analyticsUpdate m true, .merge segs])
          | .error msg => .error (pre ++ [.analyticsUpdate m true], msg)
      match attempt with
      | .ok evs => (true, evs, k + 1)
      | .error (evs0, msg) =>
        let isQ := isQuotaMsg msg
        let ev1 := evs0 ++
          [.incident (if isQ then "Quota" else "Fault"), .analyticsUpdate m false]
        match recoveryFor ctx.seq.length a r isQ with
        | .quotaShift =>
          let rest := runDispatch ctx g (a + 1) 0 (k + 1)
          (rest.1,
           ev1 ++ [.incident "Quota Shift", .failoverBump,
                   .setStatus .connecting, .wait 7000] ++ rest.2.1,
           rest.2.2)
        | .sameRetry =>
          let rest := runDispatch ctx g a (r + 1) (k + 1)
          (rest.1,
           ev1 ++ [.setStatus .connecting, .wait 2000] ++ rest.2.1,
           rest.2.2)
        | .faultShift =>
          let rest := runDispatch ctx g (a + 1) 0 (k + 1)
          (rest.1,
           ev1 ++ [.incident "Fault Recovery", .failoverBump] ++ rest.2.1,
           rest.2.2)
        | .giveUp => (false, ev1, k + 1)

/-- Embeds `processBatchWithFailover(audioBuffer, offset, batchIndex, a, r)`:
the recursion depth from `(a, r)` is at most `2 * (seq.length - a)`, so
the fuel below never runs out. -/
def processBatchWithFailover (ctx : MachineCtx) (a r k : Nat) :
    Bool × List Event × Nat :=
  runDispatch ctx (2 * (ctx.seq.length - a) + 1) a r k

/-! ## The caption track and its merge (src/App.tsx line 202) -/

/-- Embeds `CaptionSegment` (src/types.ts) with numeric fields, as produced from a
well-formed response. -/
structure CaptionSegment where
  id : ℚ
  start_seconds : ℚ
  end_seconds : ℚ
  text : String
deriving DecidableEq

/-- The comparator `(a, b) => a.start_seconds - b.start_seconds` orders by
start time; `Array.prototype.sort` is a stable sort, modelled by insertion
sort (Mathlib's `insertionSort` is stable). -/
def segLe (a b : CaptionSegment) : Prop :=
  a.start_seconds ≤ b.start_seconds

instance : DecidableRel segLe := fun a b =>
  inferInstanceAs (Decidable (a.start_seconds ≤ b.start_seconds))

/-- Embeds `setSegments(prev => [...prev, ...adjusted].sort((a, b) =>
a.start_seconds - b.start_seconds))`. -/
def mergeTrack (prev new : List CaptionSegment) : List CaptionSegment :=
  List.insertionSort segLe (prev ++ new)

/-- The caption track after merging each chunk's results in the given
completion order. -/
def mergeAll (order : List (List CaptionSegment)) : List CaptionSegment :=
  order.foldl mergeTrack []

/-- The same merge at the level of raw `adjustedSegments`, whose fields may
be non-numeric when the response violated the output contract.  A
comparator result of `NaN` is treated as `0` by `Array.prototype.sort`
(elements compare as equal), so any non-numeric operand makes the pair
compare as equal here.  (A numeric string would coerce in JS; no claim
exercises that case.) -/
def jsSegLe (a b : AdjSeg) : Prop :=
  (match a.start_seconds, b.start_seconds with
   | .num x, .num y => decide (x ≤ y)
   | _, _ => true) = true

instance : DecidableRel jsSegLe := fun _ _ => instDecidableEqBool _ _

def mergeTrackJS (prev new : List AdjSeg) : List AdjSeg :=
  List.insertionSort jsSegLe (prev ++ new)

/-! ## Chunk planning (src/App.tsx lines 256-266) -/

/-- Embeds `CHUNK_DURATION = 300` (5-minute segments). -/
def CHUNK_DURATION : ℚ := 300

/-- The chunk windows computed by `startProcessing`:
`numChunks = Math.ceil(duration / CHUNK_DURATION)`, window `i` running
from `start = i * CHUNK_DURATION` to `end = Math.min(start +
CHUNK_DURATION, duration)`. -/
def chunkPlan (total cd : ℚ) : List (ℚ × ℚ) :=
  (List.range ⌈total / cd⌉.toNat).map fun (i : ℕ) =>
    ((i : ℚ) * cd, min ((i : ℚ) * cd + cd) total)

/-! ## SRT serialization (src/utils/timeFormatter.ts) -/

/-- Embeds `n.toString().padStart(2, '0')` for the two-digit fields produced by
`toISOString`. -/
def pad2 (n : Nat) : String :=
  if n < 10 then "0" ++ toString n else toString n

/-- Embeds `ms.toString().padStart(3, '0')`. -/
def pad3 (n : Nat) : String :=
  if n < 10 then "00" ++ toString n
  else if n < 100 then "0" ++ toString n
  else toString n

/-- Embeds `date.toISOString().substr(11, 8)` for a date holding `dateMs ≥ 0`
milliseconds since the epoch: the `HH:MM:SS` part of the ISO string. -/
def isoTimePart (dateMs : Nat) : String :=
  let s := dateMs / 1000
  pad2 (s / 3600 % 24) ++ ":" ++ pad2 (s % 3600 / 60) ++ ":" ++ pad2 (s % 60)

/-- Embeds `formatSecondsToSRT` (src/utils/timeFormatter.ts lines 1-7):
`date.setSeconds(seconds)` stores `trunc(seconds * 1000)` milliseconds
(`TimeClip` truncates toward zero; for the nonnegative times of caption
segments this is the floor), the time part is read back from
`toISOString`, and the millisecond field is computed separately as
`Math.floor((seconds % 1) * 1000)`.  Negative times (pre-epoch dates) are
outside the modelled range. -/
def formatSecondsToSRT (q : ℚ) : String :=
  let dateMs : Nat := ⌊q * 1000⌋.toNat
  let ms : Nat := ⌊(q - ⌊q⌋) * 1000⌋.toNat
  isoTimePart dateMs ++ "," ++ pad3 ms

/-- Embeds `generateSRT` (src/utils/timeFormatter.ts lines 9-18). -/
def generateSRT (segments : List CaptionSegment) : String :=
  String.intercalate "\n"
    (segments.enum.map fun p =>
      toString (p.1 + 1) ++ "\n" ++ formatSecondsToSRT p.2.start_seconds ++
      " --> " ++ formatSecondsToSRT p.2.end_seconds ++ "\n" ++ p.2.text ++ "\n")

/-- The spec's own description of one timestamp, `HH:MM:SS,mmm`
(spec §6, "millisecond-precision timestamps zero-padded to 3 digits"):
hours/minutes/seconds of the integral part and the milliseconds of the
total `⌊1000·q⌋`. -/
def srtTimestampSpec (q : ℚ) : String :=
  let s : Nat := ⌊q⌋.toNat
  pad2 (s / 3600) ++ ":" ++ pad2 (s % 3600 / 60) ++ ":" ++ pad2 (s % 60) ++
    "," ++ pad3 (⌊q * 1000⌋.toNat % 1000)

/-! ## The orchestrator (`startProcessing`, src/App.tsx lines 244-284) -/

/-- Embeds `REQUEST_GAP = 5000` (5s gap between batches). -/
def REQUEST_GAP : Nat := 5000

/-- The pipeline abort message thrown on line 269. -/
def fatalMsg : String := "Neural Grid Failure. All fallback cores exhausted."

/-- The React state touched by the pipeline that the claims are about. -/
structure OrchState where
  status : StatusTag
  segments : List AdjSeg
  progress : Nat

/-- Effect of one machine event on the application state: `setStatus` and
`setSegments` (the merge) update state; analytics, incidents and sleeps do
not touch the status or the track. -/
def applyEvent (st : OrchState) (e : Event) : OrchState :=
  match e with
  | .setStatus s => { st with status := s }
  | .merge segs => { st with segments := mergeTrackJS st.segments segs }
  | _ => st

/-- Embeds `Math.round(x)` for `x ≥ 0` (half rounds up). -/
def jsRound (q : ℚ) : Nat := ⌊q + 1 / 2⌋.toNat

/-- The machine context the orchestrator uses for chunk `i`: the ambient
environment plus the chunk's own offset `start = i * CHUNK_DURATION`
(src/App.tsx lines 260, 268). -/
def chunkCtxAt (cc : Nat → MachineCtx) (i : Nat) : MachineCtx :=
  { cc i with offset := (i : ℚ) * CHUNK_DURATION }

/-- The run of `processBatchWithFailover(chunkBuffer, start, i, 0, 0)` for
chunk `i` (src/App.tsx line 268). -/
def chunkRun (cc : Nat → MachineCtx) (i : Nat) : Bool × List Event × Nat :=
  processBatchWithFailover (chunkCtxAt cc i) 0 0 0

/-- The `for` loop of `startProcessing` (lines 259-273): process chunks in
index order, apply each run's events to the state, abort with the fatal
error on the first failed chunk, otherwise advance progress; after the
loop the status becomes `completed` (line 276). -/
def runChunks (cc : Nat → MachineCtx) (numChunks : Nat) :
    List Nat → OrchState → OrchState
  | [], st => { st with status := .completed }
  | i :: rest, st =>
    let r := chunkRun cc i
    let st1 := r.2.1.foldl applyEvent st
    if r.1 then
      runChunks cc numChunks rest
        { st1 with progress := jsRound ((i + 1 : ℚ) / numChunks * 100) }
    else
      { st1 with status := .error fatalMsg }

/-- Embeds `startProcessing` on a source of the given decoded duration, starting
from the segment track left by `handleFileChange` (empty for a freshly
loaded file). -/
def startProcessing (duration : ℚ) (cc : Nat → MachineCtx)
    (initSegments : List AdjSeg) : OrchState :=
  let numChunks := ⌈duration / CHUNK_DURATION⌉.toNat
  runChunks cc numChunks (List.range numChunks)
    { status := .connecting, segments := initSegments, progress := 0 }

/-- The Export SRT button is enabled iff the track is non-empty
(`disabled={segments.length === 0}`, src/App.tsx line 421); the status is
not consulted. -/
def exportEnabled (st : OrchState) : Bool :=
  !(st.segments.length == 0)

/-! ## Trace observables -/

def isDispatchEv : Event → Bool
  | .dispatch _ => true
  | _ => false

def isPrepareEv : Event → Bool
  | .prepare => true
  | _ => false

def isFailoverEv : Event → Bool
  | .failoverBump => true
  | _ => false

def isMergeEv : Event → Bool
  | .merge _ => true
  | _ => false

/-- The message caught by the `catch` block for a given attempt outcome:
the thrown network/parse error, or the `TypeError` raised while mapping the
parsed response; `none` when the attempt succeeds. -/
def attemptMsg (off : ℚ) : AttemptOutcome → Option String
  | .netError msg => some msg
  | .replyBad msg => some msg
  | .reply j =>
    match jsonToSegs j off with
    | .ok _ => none
    | .error msg => some msg

/-- The attempt fails and its message is not classified as a quota error
(spec: `TransientFault`, or `MalformedResponse` treated the same way). -/
def failsTransient (off : ℚ) (o : AttemptOutcome) : Prop :=
  ∃ m, attemptMsg off o = some m ∧ isQuotaMsg m = false

/-- The attempt fails and its message is classified as a quota error. -/
def failsQuota (off : ℚ) (o : AttemptOutcome) : Prop :=
  ∃ m, attemptMsg off o = some m ∧ isQuotaMsg m = true

/-- The events of the `k`-th attempt, dispatched at rung `a`, when it fails
with incident category `cat`: model selection, audio preparation, status,
the dispatch, the success-side analytics update when the call itself
returned (`updateAnalytics(..., true)` runs before `JSON.parse`), then the
incident and the failure analytics update recorded by the catch block. -/
def attemptFailEvents (ctx : MachineCtx) (k a : Nat) (cat : String) : List Event :=
  let m := ctx.seq.getD a 0
  [.setActiveModel m, .prepare, .setStatus .streaming, .dispatch a] ++
  (match ctx.outcome k with
   | .netError _ => []
   | _ => [.analyticsUpdate m true]) ++
  [.incident cat, .analyticsUpdate m false]

/-- Expected per-rung behaviour under persistent transient faults: two
attempts at rung `a` separated by the 2-second same-rung retry wait, then
(unless `a` is the last rung) a failover to rung `a + 1`. -/
def c1Rung (ctx : MachineCtx) (a k : Nat) : List Event :=
  attemptFailEvents ctx k a "Fault" ++ [.setStatus .connecting, .wait 2000] ++
  attemptFailEvents ctx (k + 1) a "Fault" ++
  (if a + 1 < ctx.seq.length then [.incident "Fault Recovery", .failoverBump] else [])

/-- The full expected trace under persistent transient faults, over `n`
rungs starting at rung `a` and attempt counter `k`. -/
def c1Trace (ctx : MachineCtx) : Nat → Nat → Nat → List Event
  | 0, _, _ => []
  | n + 1, a, k => c1Rung ctx a k ++ c1Trace ctx n (a + 1) (k + 2)

/-- Expected per-rung behaviour under persistent quota errors: a single
attempt at rung `a`, then (unless `a` is the last rung) an immediate
failover with the 7-second cooldown. -/
def c2Rung (ctx : MachineCtx) (a k : Nat) : List Event :=
  attemptFailEvents ctx k a "Quota" ++
  (if a + 1 < ctx.seq.length then
    [.incident "Quota Shift", .failoverBump, .setStatus .connecting, .wait 7000]
   else [])

/-- The full expected trace under persistent quota errors. -/
def c2Trace (ctx : MachineCtx) : Nat → Nat → Nat → List Event
  | 0, _, _ => []
  | n + 1, a, k => c2Rung ctx a k ++ c2Trace ctx n (a + 1) (k + 1)

/-! ## Behaviour of the machine under persistent transient faults -/

theorem runDispatch_transient (ctx : MachineCtx)
    (hon : ∀ k, ctx.online k = true)
    (hf : ∀ k, failsTransient ctx.offset (ctx.outcome k)) :
    ∀ n g a k, a + n = ctx.seq.length → 2 * n + 1 ≤ g →
      runDispatch ctx g a 0 k = (false, c1Trace ctx n a k, k + 2 * n) := by
  intro n
  induction n with
  | zero =>
    intro g a k ha hg
    obtain ⟨g1, rfl⟩ : ∃ g1, g = g1 + 1 := ⟨g - 1, by omega⟩
    simp [runDispatch, c1Trace, show a ≥ ctx.seq.length by omega]
  | succ n ih =>
    intro g a k ha hg
    obtain ⟨g1, rfl⟩ : ∃ g1, g = g1 + 1 := ⟨g - 1, by omega⟩
    have hg1 : 2 * n + 2 ≤ g1 := by omega
    obtain ⟨m1, hm1, hq1⟩ := hf k
    obtain ⟨m2, hm2, hq2⟩ := hf (k + 1)
    have halt : ¬ a ≥ ctx.seq.length := by omega
    have step2 : ∀ gg, 2 * n + 2 ≤ gg →
        runDispatch ctx gg a 1 (k + 1) =
          (false,
           attemptFailEvents ctx (k + 1) a "Fault" ++
             (if a + 1 < ctx.seq.length then
               [.incident "Fault Recovery", .failoverBump] else []) ++
             c1Trace ctx n (a + 1) (k + 2),
           k + 2 + 2 * n) := by
      intro gg hgg
      obtain ⟨gg1, rfl⟩ : ∃ gg1, gg = gg1 + 1 := ⟨gg - 1, by omega⟩
      by_cases hlast : a + 1 < ctx.seq.length
      · have hrec : recoveryFor ctx.seq.length a 1 false = .faultShift := by
          simp [recoveryFor, show a < ctx.seq.length - 1 by omega]
        have ihn := ih gg1 (a + 1) (k + 2) (by omega) (by omega)
        cases ho : ctx.outcome (k + 1) with
        | netError msg =>
          simp only [attemptMsg, ho, Option.some.injEq] at hm2
          subst hm2
          simp [runDispatch, halt, hon, ho, hq2, hrec, ihn,
            attemptFailEvents, hlast]
        | replyBad msg =>
          simp only [attemptMsg, ho, Option.some.injEq] at hm2
          subst hm2
          simp [runDispatch, halt, hon, ho, hq2, hrec, ihn,
            attemptFailEvents, hlast]
        | reply j =>
          simp only [attemptMsg, ho] at hm2
          cases hj : jsonToSegs j ctx.offset with
          | ok segs => simp [hj] at hm2
          | error msg =>
            simp only [hj, Option.some.injEq] at hm2
            subst hm2
            simp [runDispatch, halt, hon, ho, hj, hq2, hrec, ihn,
              attemptFailEvents, hlast]
      · have hrec : recoveryFor ctx.seq.length a 1 false = .giveUp := by
          simp [recoveryFor, show ¬ a < ctx.seq.length - 1 by omega]
        have hn0 : n = 0 := by omega
        subst hn0
        cases ho : ctx.outcome (k + 1) with
        | netError msg =>
          simp only [attemptMsg, ho, Option.some.injEq] at hm2
          subst hm2
          simp [runDispatch, halt, hon, ho, hq2, hrec,
            attemptFailEvents, hlast, c1Trace]
        | replyBad msg =>
          simp only [attemptMsg, ho, Option.some.injEq] at hm2
          subst hm2
          simp [runDispatch, halt, hon, ho, hq2, hrec,
            attemptFailEvents, hlast, c1Trace]
        | reply j =>
          simp only [attemptMsg, ho] at hm2
          cases hj : jsonToSegs j ctx.offset with
          | ok segs => simp [hj] at hm2
          | error msg =>
            simp only [hj, Option.some.injEq] at hm2
            subst hm2
            simp [runDispatch, halt, hon, ho, hj, hq2, hrec,
              attemptFailEvents, hlast, c1Trace]
    have hrec0 : recoveryFor ctx.seq.length a 0 false = .sameRetry := by
      simp [recoveryFor]
    have hstep := step2 g1 hg1
    cases ho : ctx.outcome k with
    | netError msg =>
      simp only [attemptMsg, ho, Option.some.injEq] at hm1
      subst hm1
      simp [runDispatch, halt, hon, ho, hq1, hrec0, hstep, c1Trace, c1Rung,
        attemptFailEvents]
      omega
    | replyBad msg =>
      simp only [attemptMsg, ho, Option.some.injEq] at hm1
      subst hm1
      simp [runDispatch, halt, hon, ho, hq1, hrec0, hstep, c1Trace, c1Rung,
        attemptFailEvents]
      omega
    | reply j =>
      simp only [attemptMsg, ho] at hm1
      cases hj : jsonToSegs j ctx.offset with
      | ok segs => simp [hj] at hm1
      | error msg =>
        simp only [hj, Option.some.injEq] at hm1
        subst hm1
        simp [runDispatch, halt, hon, ho, hj, hq1, hrec0, hstep, c1Trace,
          c1Rung, attemptFailEvents]
        omega

theorem attemptFailEvents_filter_dispatch (ctx : MachineCtx) (k a : Nat)
    (cat : String) :
    (attemptFailEvents ctx k a cat).filter isDispatchEv = [.dispatch a] := by
  cases ho : ctx.outcome k <;> simp [attemptFailEvents, ho, isDispatchEv]

theorem c1Trace_filter_dispatch (ctx : MachineCtx) :
    ∀ n a k, (c1Trace ctx n a k).filter isDispatchEv =
      ((List.range' a n).map (fun i => [Event.dispatch i, Event.dispatch i])).flatten := by
  intro n
  induction n with
  | zero => intro a k; simp [c1Trace, List.range']
  | succ n ih =>
    intro a k
    simp [c1Trace, c1Rung, List.range', List.filter_append,
      attemptFailEvents_filter_dispatch, ih, isDispatchEv]
    rintro e - (rfl | rfl) <;> rfl

theorem c2Trace_filter_dispatch (ctx : MachineCtx) :
    ∀ n a k, (c2Trace ctx n a k).filter isDispatchEv =
      (List.range' a n).map Event.dispatch := by
  intro n
  induction n with
  | zero => intro a k; simp [c2Trace, List.range']
  | succ n ih =>
    intro a k
    simp [c2Trace, c2Rung, List.range', List.filter_append,
      attemptFailEvents_filter_dispatch, ih]
    rintro e - (rfl | rfl | rfl | rfl) <;> rfl

theorem attemptFailEvents_countP_failover (ctx : MachineCtx) (k a : Nat)
    (cat : String) :
    (attemptFailEvents ctx k a cat).countP isFailoverEv = 0 := by
  cases ho : ctx.outcome k <;> simp [attemptFailEvents, ho, isFailoverEv]

theorem c2Trace_countP_failover (ctx : MachineCtx) :
    ∀ n a k, a + n = ctx.seq.length →
      (c2Trace ctx n a k).countP isFailoverEv = n - 1 := by
  intro n
  induction n with
  | zero => intro a k _; simp [c2Trace]
  | succ n ih =>
    intro a k ha
    by_cases hlast : a + 1 < ctx.seq.length
    · have := ih (a + 1) (k + 1) (by omega)
      simp [c2Trace, c2Rung, List.countP_append,
        attemptFailEvents_countP_failover, hlast, this, isFailoverEv]
      omega
    · have hn : n = 0 := by omega
      subst hn
      simp [c2Trace, c2Rung, List.countP_append,
        attemptFailEvents_countP_failover, hlast]

/-! ## Behaviour under persistent quota errors -/

theorem runDispatch_quota (ctx : MachineCtx)
    (hon : ∀ k, ctx.online k = true)
    (hf : ∀ k, failsQuota ctx.offset (ctx.outcome k)) :
    ∀ n g a r k, a + n = ctx.seq.length → n + 1 ≤ g →
      runDispatch ctx g a r k = (false, c2Trace ctx n a k, k + n) := by
  intro n
  induction n with
  | zero =>
    intro g a r k ha hg
    obtain ⟨g1, rfl⟩ : ∃ g1, g = g1 + 1 := ⟨g - 1, by omega⟩
    simp [runDispatch, c2Trace, show a ≥ ctx.seq.length by omega]
  | succ n ih =>
    intro g a r k ha hg
    obtain ⟨g1, rfl⟩ : ∃ g1, g = g1 + 1 := ⟨g - 1, by omega⟩
    obtain ⟨m1, hm1, hq1⟩ := hf k
    have halt : ¬ a ≥ ctx.seq.length := by omega
    by_cases hlast : a + 1 < ctx.seq.length
    · have hrec : ∀ r', recoveryFor ctx.seq.length a r' true = .quotaShift := by
        intro r'; simp [recoveryFor, show a < ctx.seq.length - 1 by omega]
      have ihn := ih g1 (a + 1) 0 (k + 1) (by omega) (by omega)
      cases ho : ctx.outcome k with
      | netError msg =>
        simp only [attemptMsg, ho, Option.some.injEq] at hm1
        subst hm1
        simp [runDispatch, halt, hon, ho, hq1, hrec, ihn, c2Trace, c2Rung,
          attemptFailEvents, hlast]
        omega
      | replyBad msg =>
        simp only [attemptMsg, ho, Option.some.injEq] at hm1
        subst hm1
        simp [runDispatch, halt, hon, ho, hq1, hrec, ihn, c2Trace, c2Rung,
          attemptFailEvents, hlast]
        omega
      | reply j =>
        simp only [attemptMsg, ho] at hm1
        cases hj : jsonToSegs j ctx.offset with
        | ok segs => simp [hj] at hm1
        | error msg =>
          simp only [hj, Option.some.injEq] at hm1
          subst hm1
          simp [runDispatch, halt, hon, ho, hj, hq1, hrec, ihn, c2Trace,
            c2Rung, attemptFailEvents, hlast]
          omega
    · have hrec : ∀ r', recoveryFor ctx.seq.length a r' true = .giveUp := by
        intro r'; simp [recoveryFor, show ¬ a < ctx.seq.length - 1 by omega]
      have hn : n = 0 := by omega
      subst hn
      cases ho : ctx.outcome k with
      | netError msg =>
        simp only [attemptMsg, ho, Option.some.injEq] at hm1
        subst hm1
        simp [runDispatch, halt, hon, ho, hq1, hrec, c2Trace, c2Rung,
          attemptFailEvents, hlast]
      | replyBad msg =>
        simp only [attemptMsg, ho, Option.some.injEq] at hm1
        subst hm1
        simp [runDispatch, halt, hon, ho, hq1, hrec, c2Trace, c2Rung,
          attemptFailEvents, hlast]
      | reply j =>
        simp only [attemptMsg, ho] at hm1
        cases hj : jsonToSegs j ctx.offset with
        | ok segs => simp [hj] at hm1
        | error msg =>
          simp only [hj, Option.some.injEq] at hm1
          subst hm1
          simp [runDispatch, halt, hon, ho, hj, hq1, hrec, c2Trace, c2Rung,
            attemptFailEvents, hlast]

/-! ## Concrete machine environments used by witnesses and
counterexamples -/

/-- Every attempt throws a non-quota error; connectivity is up; `titan`
ladder `[0, 1, 2, 3]`. -/
def ctxAllTransient : MachineCtx :=
  { seq := [0, 1, 2, 3], online := fun _ => true,
    outcome := fun _ => .netError "fetch failed", offset := 0 }

/-- Every attempt throws a quota error. -/
def ctxAllQuota : MachineCtx :=
  { seq := [0, 1, 2, 3], online := fun _ => true,
    outcome := fun _ => .netError "429 RESOURCE_EXHAUSTED", offset := 0 }

/-- Every attempt returns valid JSON that violates the output contract at
the element level: the single element lacks the `start` and `end` fields. -/
def ctxMissingFields : MachineCtx :=
  { seq := [0, 1, 2, 3], online := fun _ => true,
    outcome := fun _ => .reply (.arr [.obj [("text", .str "hi")]]), offset := 0 }

/-- Every attempt returns valid JSON that is not an array. -/
def ctxNonArray : MachineCtx :=
  { seq := [0, 1, 2, 3], online := fun _ => true,
    outcome := fun _ => .reply (.num 5), offset := 0 }

/-- Connectivity is down at every call entry. -/
def ctxOffline : MachineCtx :=
  { seq := [0, 1, 2, 3], online := fun _ => false,
    outcome := fun _ => .netError "unreachable", offset := 0 }

/-! ## Claim theorems -/

/-- Claim C1. For every chunk whose every dispatch attempt fails with a
transient (non-quota) classification — a thrown network error or a
malformed response alike — the dispatch-with-recovery machine performs
exactly one same-rung retry at each rung before escalating, resetting the
retry counter on each escalation, so each rung receives exactly two
attempts: the run returns failure with trace `c1Trace` (per rung: two
failed attempts separated by the 2-second same-rung wait, then a failover
to the next rung except at the last), makes `2 · ladderLength` attempts in
total, and its dispatch events are exactly two per rung in ladder order. -/
theorem c1_transient_retry_ladder (ctx : MachineCtx)
    (hon : ∀ k, ctx.online k = true)
    (hf : ∀ k, failsTransient ctx.offset (ctx.outcome k)) :
    processBatchWithFailover ctx 0 0 0 =
      (false, c1Trace ctx ctx.seq.length 0 0, 2 * ctx.seq.length) ∧
    (c1Trace ctx ctx.seq.length 0 0).filter isDispatchEv =
      ((List.range ctx.seq.length).map
        (fun i => [Event.dispatch i, Event.dispatch i])).flatten := by
  constructor
  · have h := runDispatch_transient ctx hon hf ctx.seq.length
      (2 * (ctx.seq.length - 0) + 1) 0 0 (by omega) (by omega)
    simpa [processBatchWithFailover] using h
  · rw [c1Trace_filter_dispatch, List.range_eq_range']

theorem c1_transient_retry_ladder_witness :
    processBatchWithFailover ctxAllTransient 0 0 0 =
      (false, c1Trace ctxAllTransient 4 0 0, 8) ∧
    (c1Trace ctxAllTransient 4 0 0).filter isDispatchEv =
      ((List.range 4).map
        (fun i => [Event.dispatch i, Event.dispatch i])).flatten :=
  c1_transient_retry_ladder ctxAllTransient (fun _ => rfl)
    (fun _ => ⟨"fetch failed", rfl, rfl⟩)

/-- Claim C2. For every chunk whose every dispatch attempt fails with a
quota classification, the machine escalates on the very first failure at
each rung (zero same-rung retries), counts each escalation as a failover
event followed by the fixed 7-second cooldown before the next attempt
(`c2Rung`), and returns failure after exactly `ladderLength` attempts, one
dispatch per rung in ladder order. -/
theorem c2_quota_ladder (ctx : MachineCtx)
    (hon : ∀ k, ctx.online k = true)
    (hf : ∀ k, failsQuota ctx.offset (ctx.outcome k)) :
    processBatchWithFailover ctx 0 0 0 =
      (false, c2Trace ctx ctx.seq.length 0 0, ctx.seq.length) ∧
    (c2Trace ctx ctx.seq.length 0 0).filter isDispatchEv =
      (List.range ctx.seq.length).map Event.dispatch ∧
    (c2Trace ctx ctx.seq.length 0 0).countP isFailoverEv =
      ctx.seq.length - 1 := by
  refine ⟨?_, ?_, ?_⟩
  · have h := runDispatch_quota ctx hon hf ctx.seq.length
      (2 * (ctx.seq.length - 0) + 1) 0 0 0 (by omega) (by omega)
    simpa [processBatchWithFailover] using h
  · rw [c2Trace_filter_dispatch, List.range_eq_range']
  · exact c2Trace_countP_failover ctx ctx.seq.length 0 0 (by omega)

theorem c2_quota_ladder_witness :
    processBatchWithFailover ctxAllQuota 0 0 0 =
      (false, c2Trace ctxAllQuota 4 0 0, 4) ∧
    (c2Trace ctxAllQuota 4 0 0).filter isDispatchEv =
      (List.range 4).map Event.dispatch ∧
    (c2Trace ctxAllQuota 4 0 0).countP isFailoverEv = 3 :=
  c2_quota_ladder ctxAllQuota (fun _ => rfl)
    (fun _ => ⟨"429 RESOURCE_EXHAUSTED", rfl, rfl⟩)

/-- Claim C3, counterexample. The claim says that on any dispatch failure at
the last rung the machine transitions to `FAILED_CHUNK` with no further
same-rung retry, regardless of classification and retry count.  Entering
the machine at the last rung (`attemptIndex = 3` of the four-rung `titan`
ladder) with retry count `0` and a transient fault, the machine dispatches
**twice** at rung 3 (a same-rung retry) before failing. -/
theorem c3_counterexample :
    (processBatchWithFailover ctxAllTransient 3 0 0).2.1.filter isDispatchEv =
      [Event.dispatch 3, Event.dispatch 3] ∧
    (processBatchWithFailover ctxAllTransient 3 0 0).2.1.countP isDispatchEv ≠ 1 := by
  exact ⟨rfl, by decide⟩

/-- Claim C3, amended. On a dispatch failure at the last rung the machine
never escalates further and reaches `FAILED_CHUNK`, but the ladder-exhausted
test is *not* evaluated before the transient-retry rule: a quota-classified
failure at the last rung fails after that single attempt, as does a
transient failure with retry count ≥ 1; a transient (non-quota) failure
with retry count 0 still performs one same-rung retry at the last rung and
only then fails (when that retry also fails). -/
theorem c3_last_rung_behaviour (ctx : MachineCtx)
    (hl : 1 ≤ ctx.seq.length)
    (hon : ∀ j, ctx.online j = true) :
    (∀ r k m, attemptMsg ctx.offset (ctx.outcome k) = some m →
      isQuotaMsg m = true →
      processBatchWithFailover ctx (ctx.seq.length - 1) r k =
        (false, attemptFailEvents ctx k (ctx.seq.length - 1) "Quota", k + 1)) ∧
    (∀ r k m, 1 ≤ r → attemptMsg ctx.offset (ctx.outcome k) = some m →
      isQuotaMsg m = false →
      processBatchWithFailover ctx (ctx.seq.length - 1) r k =
        (false, attemptFailEvents ctx k (ctx.seq.length - 1) "Fault", k + 1)) ∧
    (∀ k m m', attemptMsg ctx.offset (ctx.outcome k) = some m →
      isQuotaMsg m = false →
      attemptMsg ctx.offset (ctx.outcome (k + 1)) = some m' →
      isQuotaMsg m' = false →
      processBatchWithFailover ctx (ctx.seq.length - 1) 0 k =
        (false, attemptFailEvents ctx k (ctx.seq.length - 1) "Fault" ++
          [.setStatus .connecting, .wait 2000] ++
          attemptFailEvents ctx (k + 1) (ctx.seq.length - 1) "Fault", k + 2)) := by
  have halt : ¬ ctx.seq.length - 1 ≥ ctx.seq.length := by omega
  have hfu : 2 * (ctx.seq.length - (ctx.seq.length - 1)) + 1 = 3 := by omega
  have hnl : ¬ ctx.seq.length - 1 < ctx.seq.length - 1 := by omega
  refine ⟨?_, ?_, ?_⟩
  · intro r k m hm hq
    have hrec : recoveryFor ctx.seq.length (ctx.seq.length - 1) r true = .giveUp := by
      simp [recoveryFor, hnl]
    rw [processBatchWithFailover, hfu]
    cases ho : ctx.outcome k with
    | netError msg =>
      simp only [attemptMsg, ho, Option.some.injEq] at hm
      subst hm
      simp [runDispatch, halt, hon, ho, hq, hrec, attemptFailEvents]
    | replyBad msg =>
      simp only [attemptMsg, ho, Option.some.injEq] at hm
      subst hm
      simp [runDispatch, halt, hon, ho, hq, hrec, attemptFailEvents]
    | reply j =>
      simp only [attemptMsg, ho] at hm
      cases hj : jsonToSegs j ctx.offset with
      | ok segs => simp [hj] at hm
      | error msg =>
        simp only [hj, Option.some.injEq] at hm
        subst hm
        simp [runDispatch, halt, hon, ho, hj, hq, hrec, attemptFailEvents]
  · intro r k m hr hm hq
    have hrec : recoveryFor ctx.seq.length (ctx.seq.length - 1) r false = .giveUp := by
      simp [recoveryFor, hnl, show ¬ r < 1 by omega]
    rw [processBatchWithFailover, hfu]
    cases ho : ctx.outcome k with
    | netError msg =>
      simp only [attemptMsg, ho, Option.some.injEq] at hm
      subst hm
      simp [runDispatch, halt, hon, ho, hq, hrec, attemptFailEvents]
    | replyBad msg =>
      simp only [attemptMsg, ho, Option.some.injEq] at hm
      subst hm
      simp [runDispatch, halt, hon, ho, hq, hrec, attemptFailEvents]
    | reply j =>
      simp only [attemptMsg, ho] at hm
      cases hj : jsonToSegs j ctx.offset with
      | ok segs => simp [hj] at hm
      | error msg =>
        simp only [hj, Option.some.injEq] at hm
        subst hm
        simp [runDispatch, halt, hon, ho, hj, hq, hrec, attemptFailEvents]
  · intro k m m' hm hq hm' hq'
    have hrec0 : recoveryFor ctx.seq.length (ctx.seq.length - 1) 0 false = .sameRetry := by
      simp [recoveryFor]
    have hrec1 : recoveryFor ctx.seq.length (ctx.seq.length - 1) 1 false = .giveUp := by
      simp [recoveryFor, hnl]
    have step2 : ∀ gg, 1 ≤ gg → runDispatch ctx gg (ctx.seq.length - 1) 1 (k + 1) =
        (false, attemptFailEvents ctx (k + 1) (ctx.seq.length - 1) "Fault", k + 2) := by
      intro gg hgg
      obtain ⟨gg1, rfl⟩ : ∃ gg1, gg = gg1 + 1 := ⟨gg - 1, by omega⟩
      cases ho : ctx.outcome (k + 1) with
      | netError msg =>
        simp only [attemptMsg, ho, Option.some.injEq] at hm'
        subst hm'
        simp [runDispatch, halt, hon, ho, hq', hrec1, attemptFailEvents]
      | replyBad msg =>
        simp only [attemptMsg, ho, Option.some.injEq] at hm'
        subst hm'
        simp [runDispatch, halt, hon, ho, hq', hrec1, attemptFailEvents]
      | reply j =>
        simp only [attemptMsg, ho] at hm'
        cases hj : jsonToSegs j ctx.offset with
        | ok segs => simp [hj] at hm'
        | error msg =>
          simp only [hj, Option.some.injEq] at hm'
          subst hm'
          simp [runDispatch, halt, hon, ho, hj, hq', hrec1, attemptFailEvents]
    obtain ⟨G, hG1, hG2⟩ :
        ∃ G, 2 * (ctx.seq.length - (ctx.seq.length - 1)) + 1 = G + 1 ∧ 1 ≤ G :=
      ⟨2, by omega, by omega⟩
    have hstep := step2 G hG2
    rw [processBatchWithFailover, hG1]
    cases ho : ctx.outcome k with
    | netError msg =>
      simp only [attemptMsg, ho, Option.some.injEq] at hm
      subst hm
      simp [runDispatch, halt, hon, ho, hq, hrec0, hstep, attemptFailEvents]
    | replyBad msg =>
      simp only [attemptMsg, ho, Option.some.injEq] at hm
      subst hm
      simp [runDispatch, halt, hon, ho, hq, hrec0, hstep, attemptFailEvents]
    | reply j =>
      simp only [attemptMsg, ho] at hm
      cases hj : jsonToSegs j ctx.offset with
      | ok segs => simp [hj] at hm
      | error msg =>
        simp only [hj, Option.some.injEq] at hm
        subst hm
        simp [runDispatch, halt, hon, ho, hj, hq, hrec0, hstep, attemptFailEvents]

theorem c3_last_rung_behaviour_witness :
    processBatchWithFailover ctxAllQuota 3 5 7 =
      (false, attemptFailEvents ctxAllQuota 7 3 "Quota", 8) ∧
    processBatchWithFailover ctxAllTransient 3 0 0 =
      (false, attemptFailEvents ctxAllTransient 0 3 "Fault" ++
        [.setStatus .connecting, .wait 2000] ++
        attemptFailEvents ctxAllTransient 1 3 "Fault", 2) :=
  ⟨(c3_last_rung_behaviour ctxAllQuota (by decide) (fun _ => rfl)).1
      5 7 "429 RESOURCE_EXHAUSTED" rfl rfl,
   (c3_last_rung_behaviour ctxAllTransient (by decide) (fun _ => rfl)).2.2
      0 "fetch failed" "fetch failed" rfl rfl rfl rfl⟩

/-- Claim C4, counterexample. The claim says every valid-JSON response that
violates the output contract — including an element missing a required
`start`/`end`/`text` field — fails with `MalformedResponse` and never
yields caption segments.  For the response `[{"text": "hi"}]` (a valid
JSON array whose element lacks the numeric `start` and `end` fields) the
dispatch instead *succeeds* on the first attempt and merges a caption
segment built from the invalid data, with `NaN` start and end times. -/
theorem c4_counterexample :
    (processBatchWithFailover ctxMissingFields 0 0 0).1 = true ∧
    (processBatchWithFailover ctxMissingFields 0 0 0).2.1 =
      [.setActiveModel 0, .prepare, .setStatus .streaming, .dispatch 0,
       .analyticsUpdate 0 true,
       .merge [{ start_seconds := .nan, end_seconds := .nan,
                 text := some (.str "hi") }]] :=
  ⟨rfl, rfl⟩

/-- Claim C4, amended. Contract validation happens only at the top level:
a response that parses to valid JSON but is *not* an array makes
`data.map` throw a `TypeError`, whose message is not quota-classified, so
the machine handles it like a transient fault (one same-rung retry first,
no segments ever merged from it); element-level violations (missing or
wrongly-typed `start`/`end`/`text` fields) are not detected and produce
caption segments built from the invalid data (see `c4_counterexample`). -/
theorem c4_nonarray_transient (ctx : MachineCtx) :
    (∀ (j : Json) (off : ℚ), (∀ xs, j ≠ Json.arr xs) →
      jsonToSegs j off = Except.error "data.map is not a function") ∧
    isQuotaMsg "data.map is not a function" = false ∧
    (∀ g a k (j : Json), ctx.online k = true → a < ctx.seq.length →
      ctx.outcome k = .reply j → (∀ xs, j ≠ Json.arr xs) →
      runDispatch ctx (g + 1) a 0 k =
        (let rest := runDispatch ctx g a 1 (k + 1)
         (rest.1,
          [.setActiveModel (ctx.seq.getD a 0), .prepare, .setStatus .streaming,
           .dispatch a, .analyticsUpdate (ctx.seq.getD a 0) true,
           .incident "Fault", .analyticsUpdate (ctx.seq.getD a 0) false,
           .setStatus .connecting, .wait 2000] ++ rest.2.1,
          rest.2.2))) := by
  have hmap : ∀ (j : Json) (off : ℚ), (∀ xs, j ≠ Json.arr xs) →
      jsonToSegs j off = Except.error "data.map is not a function" := by
    intro j off hj
    cases j with
    | arr xs => exact absurd rfl (hj xs)
    | null => rfl
    | bool b => rfl
    | num q => rfl
    | str s => rfl
    | obj fs => rfl
  refine ⟨hmap, rfl, ?_⟩
  intro g a k j honk ha ho hj
  have halt : ¬ a ≥ ctx.seq.length := by omega
  have hrec : recoveryFor ctx.seq.length a 0 false = .sameRetry := by
    simp [recoveryFor]
  simp [runDispatch, halt, honk, ho, hmap j ctx.offset hj,
    show isQuotaMsg "data.map is not a function" = false from rfl, hrec]

theorem c4_nonarray_transient_witness :
    jsonToSegs (Json.num 5) 0 = Except.error "data.map is not a function" ∧
    runDispatch ctxNonArray 3 0 0 0 =
      (let rest := runDispatch ctxNonArray 2 0 1 1
       (rest.1,
        [.setActiveModel 0, .prepare, .setStatus .streaming,
         .dispatch 0, .analyticsUpdate 0 true,
         .incident "Fault", .analyticsUpdate 0 false,
         .setStatus .connecting, .wait 2000] ++ rest.2.1,
        rest.2.2)) :=
  ⟨(c4_nonarray_transient ctxNonArray).1 (Json.num 5) 0
      (fun xs h => Json.noConfusion h),
   (c4_nonarray_transient ctxNonArray).2.2 2 0 0 (Json.num 5) rfl
      (by decide) rfl (fun xs h => Json.noConfusion h)⟩

/-- Claim C6, counterexample. The claim says audio preparation is performed
exactly once per chunk and cached across retries and failovers.  For a
chunk whose attempts all fail transiently on the four-rung ladder, the
machine performs the preparation (downsample + WAV encode + base64) eight
times — once per dispatch attempt — not once. -/
theorem c6_counterexample :
    (processBatchWithFailover ctxAllTransient 0 0 0).2.1.countP isPrepareEv = 8 ∧
    (processBatchWithFailover ctxAllTransient 0 0 0).2.1.countP isPrepareEv ≠ 1 := by
  exact ⟨rfl, by decide⟩

theorem runDispatch_prepare_eq_dispatch (ctx : MachineCtx) :
    ∀ g a r k, (runDispatch ctx g a r k).2.1.countP isPrepareEv =
      (runDispatch ctx g a r k).2.1.countP isDispatchEv := by
  intro g
  induction g with
  | zero => intro a r k; simp [runDispatch]
  | succ g ih =>
    intro a r k
    by_cases ha : a ≥ ctx.seq.length
    · simp [runDispatch, ha]
    · by_cases honk : ctx.online k = false
      · simp [runDispatch, ha, honk]
      · cases ho : ctx.outcome k with
        | netError msg =>
          rcases hr : recoveryFor ctx.seq.length a r (isQuotaMsg msg) <;>
            simp [runDispatch, ha, honk, ho, hr, List.countP_append,
              List.countP_cons, isPrepareEv, isDispatchEv, ih]
        | replyBad msg =>
          rcases hr : recoveryFor ctx.seq.length a r (isQuotaMsg msg) <;>
            simp [runDispatch, ha, honk, ho, hr, List.countP_append,
              List.countP_cons, isPrepareEv, isDispatchEv, ih]
        | reply j =>
          cases hj : jsonToSegs j ctx.offset with
          | ok segs =>
            simp [runDispatch, ha, honk, ho, hj, List.countP_append,
              List.countP_cons, isPrepareEv, isDispatchEv]
          | error msg =>
            rcases hr : recoveryFor ctx.seq.length a r (isQuotaMsg msg) <;>
              simp [runDispatch, ha, honk, ho, hj, hr, List.countP_append,
                List.countP_cons, isPrepareEv, isDispatchEv, ih]

/-- Claim C6, amended. Audio preparation is *not* cached: every run of the
dispatch-with-recovery machine performs the audio preparation once per
dispatch attempt — the number of preparation events always equals the
number of dispatch attempts, so every retry and failover re-derives the
payload. -/
theorem c6_prepare_per_attempt (ctx : MachineCtx) (a r k : Nat) :
    (processBatchWithFailover ctx a r k).2.1.countP isPrepareEv =
      (processBatchWithFailover ctx a r k).2.1.countP isDispatchEv :=
  runDispatch_prepare_eq_dispatch ctx _ a r k

/-! ## State effects of event traces -/

/-- The caption track after applying the merge events of a trace to an
initial track; all other events leave the track unchanged. -/
def applyMerges (t : List AdjSeg) (evs : List Event) : List AdjSeg :=
  evs.foldl
    (fun t e => match e with | .merge segs => mergeTrackJS t segs | _ => t) t

/-- The status after applying the `setStatus` events of a trace. -/
def statusAfter (s0 : StatusTag) (evs : List Event) : StatusTag :=
  evs.foldl (fun st e => match e with | .setStatus s => s | _ => st) s0

/-- The track accumulated by running the chunks of `l` in order, starting
from track `t`. -/
def trackFrom (cc : Nat → MachineCtx) (t : List AdjSeg) (l : List Nat) :
    List AdjSeg :=
  l.foldl (fun t i => applyMerges t (chunkRun cc i).2.1) t

theorem foldl_applyEvent_segments :
    ∀ (evs : List Event) (st : OrchState),
      (evs.foldl applyEvent st).segments = applyMerges st.segments evs := by
  intro evs
  induction evs with
  | nil => intro st; rfl
  | cons e evs ih =>
    intro st
    cases e <;> simp [applyEvent, applyMerges, List.foldl_cons, ih] <;>
      rfl

theorem foldl_applyEvent_status :
    ∀ (evs : List Event) (st : OrchState),
      (evs.foldl applyEvent st).status = statusAfter st.status evs := by
  intro evs
  induction evs with
  | nil => intro st; rfl
  | cons e evs ih =>
    intro st
    cases e <;> simp [applyEvent, statusAfter, List.foldl_cons, ih] <;>
      rfl

theorem statusAfter_append (s0 : StatusTag) (l1 l2 : List Event) :
    statusAfter s0 (l1 ++ l2) = statusAfter (statusAfter s0 l1) l2 := by
  simp [statusAfter, List.foldl_append]

theorem applyMerges_of_no_merge :
    ∀ (evs : List Event) (t : List AdjSeg), evs.countP isMergeEv = 0 →
      applyMerges t evs = t := by
  intro evs
  induction evs with
  | nil => intro t _; rfl
  | cons e evs ih =>
    intro t h
    cases e <;>
      simp [List.countP_cons, isMergeEv] at h <;>
      simp [applyMerges, List.foldl_cons] <;>
      exact ih t (by simpa [isMergeEv] using h)

/-- A failed dispatch-with-recovery run never merged any segments. -/
theorem runDispatch_false_no_merge (ctx : MachineCtx) :
    ∀ g a r k, (runDispatch ctx g a r k).1 = false →
      (runDispatch ctx g a r k).2.1.countP isMergeEv = 0 := by
  intro g
  induction g with
  | zero => intro a r k _; simp [runDispatch]
  | succ g ih =>
    intro a r k h
    by_cases ha : a ≥ ctx.seq.length
    · simp [runDispatch, ha]
    · by_cases honk : ctx.online k = false
      · simp [runDispatch, ha, honk]
      · cases ho : ctx.outcome k with
        | netError msg =>
          rcases hr : recoveryFor ctx.seq.length a r (isQuotaMsg msg)
          all_goals simp only [runDispatch, ha, honk, ho, hr] at h ⊢
          all_goals simp [List.countP_append, List.countP_cons, isMergeEv] at h ⊢
          all_goals simpa [isMergeEv] using ih _ _ _ h
        | replyBad msg =>
          rcases hr : recoveryFor ctx.seq.length a r (isQuotaMsg msg)
          all_goals simp only [runDispatch, ha, honk, ho, hr] at h ⊢
          all_goals simp [List.countP_append, List.countP_cons, isMergeEv] at h ⊢
          all_goals simpa [isMergeEv] using ih _ _ _ h
        | reply j =>
          cases hj : jsonToSegs j ctx.offset with
          | ok segs =>
            simp [runDispatch, ha, honk, ho, hj] at h
          | error msg =>
            rcases hr : recoveryFor ctx.seq.length a r (isQuotaMsg msg)
            all_goals simp only [runDispatch, ha, honk, ho, hj, hr] at h ⊢
            all_goals simp [List.countP_append, List.countP_cons, isMergeEv] at h ⊢
            all_goals simpa [isMergeEv] using ih _ _ _ h

theorem recoveryFor_quotaShift {len a r : Nat} {isQ : Bool}
    (h : recoveryFor len a r isQ = .quotaShift) : a < len - 1 := by
  unfold recoveryFor at h
  split_ifs at h with h1 h2 h3
  · simp at h1
    exact h1.2
  all_goals simp_all

theorem recoveryFor_sameRetry {len a r : Nat} {isQ : Bool}
    (h : recoveryFor len a r isQ = .sameRetry) : r = 0 := by
  by_contra hr
  have hrlt : ¬ r < 1 := by omega
  unfold recoveryFor at h
  simp [hrlt] at h
  split_ifs at h <;> simp_all

theorem recoveryFor_faultShift {len a r : Nat} {isQ : Bool}
    (h : recoveryFor len a r isQ = .faultShift) : a < len - 1 := by
  unfold recoveryFor at h
  split_ifs at h with h1 h2 h3
  all_goals simp_all

@[simp] theorem statusAfter_nil (s0 : StatusTag) : statusAfter s0 [] = s0 := rfl

@[simp] theorem statusAfter_setActiveModel (s0 : StatusTag) (m : Nat)
    (evs : List Event) :
    statusAfter s0 (.setActiveModel m :: evs) = statusAfter s0 evs := rfl

@[simp] theorem statusAfter_prepare (s0 : StatusTag) (evs : List Event) :
    statusAfter s0 (.prepare :: evs) = statusAfter s0 evs := rfl

@[simp] theorem statusAfter_setStatus (s0 s : StatusTag) (evs : List Event) :
    statusAfter s0 (.setStatus s :: evs) = statusAfter s evs := rfl

@[simp] theorem statusAfter_dispatch (s0 : StatusTag) (a : Nat)
    (evs : List Event) :
    statusAfter s0 (.dispatch a :: evs) = statusAfter s0 evs := rfl

@[simp] theorem statusAfter_analyticsUpdate (s0 : StatusTag) (m : Nat)
    (b : Bool) (evs : List Event) :
    statusAfter s0 (.analyticsUpdate m b :: evs) = statusAfter s0 evs := rfl

@[simp] theorem statusAfter_incident (s0 : StatusTag) (cat : String)
    (evs : List Event) :
    statusAfter s0 (.incident cat :: evs) = statusAfter s0 evs := rfl

@[simp] theorem statusAfter_failoverBump (s0 : StatusTag) (evs : List Event) :
    statusAfter s0 (.failoverBump :: evs) = statusAfter s0 evs := rfl

@[simp] theorem statusAfter_wait (s0 : StatusTag) (ms : Nat)
    (evs : List Event) :
    statusAfter s0 (.wait ms :: evs) = statusAfter s0 evs := rfl

@[simp] theorem statusAfter_merge (s0 : StatusTag) (segs : List AdjSeg)
    (evs : List Event) :
    statusAfter s0 (.merge segs :: evs) = statusAfter s0 evs := rfl

/-- A failing run whose every entered call found the browser online leaves
the status at `streaming` — the status set just before its final dispatch
attempt — whatever status it started from. -/
theorem runDispatch_false_statusAfter (ctx : MachineCtx)
    (hon : ∀ j, ctx.online j = true) :
    ∀ g a r k s0, a < ctx.seq.length →
      2 * (ctx.seq.length - a) - (if r = 0 then 0 else 1) ≤ g →
      (runDispatch ctx g a r k).1 = false →
      statusAfter s0 (runDispatch ctx g a r k).2.1 = .streaming := by
  intro g
  induction g with
  | zero =>
    intro a r k s0 ha hg h
    exfalso
    by_cases hr0 : r = 0 <;> simp [hr0] at hg <;> omega
  | succ g ih =>
    intro a r k s0 ha hg h
    have ha' : ¬ a ≥ ctx.seq.length := by omega
    have honk : ¬ ctx.online k = false := by simp [hon]
    have hgx : 2 * (ctx.seq.length - a) ≤ g + 2 := by
      by_cases hr0 : r = 0 <;> simp [hr0] at hg <;> omega
    cases ho : ctx.outcome k with
    | netError msg =>
      rcases hr : recoveryFor ctx.seq.length a r (isQuotaMsg msg)
      case quotaShift =>
        have hlt := recoveryFor_quotaShift hr
        simp only [runDispatch, ha', honk, ho, hr] at h ⊢
        simp at h ⊢
        exact ih (a + 1) 0 (k + 1) _ (by omega) (by simp; omega) h
      case sameRetry =>
        have hr0 := recoveryFor_sameRetry hr
        simp only [runDispatch, ha', honk, ho, hr] at h ⊢
        simp at h ⊢
        exact ih a (r + 1) (k + 1) _ (by omega) (by simp [hr0] at hg; simp; omega) h
      case faultShift =>
        have hlt := recoveryFor_faultShift hr
        simp only [runDispatch, ha', honk, ho, hr] at h ⊢
        simp at h ⊢
        exact ih (a + 1) 0 (k + 1) _ (by omega) (by simp; omega) h
      case giveUp =>
        simp only [runDispatch, ha', honk, ho, hr]
        simp
    | replyBad msg =>
      rcases hr : recoveryFor ctx.seq.length a r (isQuotaMsg msg)
      case quotaShift =>
        have hlt := recoveryFor_quotaShift hr
        simp only [runDispatch, ha', honk, ho, hr] at h ⊢
        simp at h ⊢
        exact ih (a + 1) 0 (k + 1) _ (by omega) (by simp; omega) h
      case sameRetry =>
        have hr0 := recoveryFor_sameRetry hr
        simp only [runDispatch, ha', honk, ho, hr] at h ⊢
        simp at h ⊢
        exact ih a (r + 1) (k + 1) _ (by omega) (by simp [hr0] at hg; simp; omega) h
      case faultShift =>
        have hlt := recoveryFor_faultShift hr
        simp only [runDispatch, ha', honk, ho, hr] at h ⊢
        simp at h ⊢
        exact ih (a + 1) 0 (k + 1) _ (by omega) (by simp; omega) h
      case giveUp =>
        simp only [runDispatch, ha', honk, ho, hr]
        simp
    | reply j =>
      cases hj : jsonToSegs j ctx.offset with
      | ok segs =>
        simp [runDispatch, ha', honk, ho, hj] at h
      | error msg =>
        rcases hr : recoveryFor ctx.seq.length a r (isQuotaMsg msg)
        case quotaShift =>
          have hlt := recoveryFor_quotaShift hr
          simp only [runDispatch, ha', honk, ho, hj, hr] at h ⊢
          simp at h ⊢
          exact ih (a + 1) 0 (k + 1) _ (by omega) (by simp; omega) h
        case sameRetry =>
          have hr0 := recoveryFor_sameRetry hr
          simp only [runDispatch, ha', honk, ho, hj, hr] at h ⊢
          simp at h ⊢
          exact ih a (r + 1) (k + 1) _ (by omega) (by simp [hr0] at hg; simp; omega) h
        case faultShift =>
          have hlt := recoveryFor_faultShift hr
          simp only [runDispatch, ha', honk, ho, hj, hr] at h ⊢
          simp at h ⊢
          exact ih (a + 1) 0 (k + 1) _ (by omega) (by simp; omega) h
        case giveUp =>
          simp only [runDispatch, ha', honk, ho, hj, hr]
          simp

/-- A failed chunk run never merged anything into the track. -/
theorem chunkRun_false_no_merge (cc : Nat → MachineCtx) (i : Nat)
    (h : (chunkRun cc i).1 = false) :
    (chunkRun cc i).2.1.countP isMergeEv = 0 :=
  runDispatch_false_no_merge (chunkCtxAt cc i) _ 0 0 0 h

/-- Running the chunk loop over a prefix of successful chunks followed by a
failed chunk: the loop aborts at the failed chunk with the fatal error
status, and the track is exactly the initial track plus the merges of the
successful prefix (the failed chunk and everything after it contribute
nothing). -/
theorem runChunks_fail (cc : Nat → MachineCtx) (n : Nat) :
    ∀ (l : List Nat) (kf : Nat) (post : List Nat) (st : OrchState),
      (∀ i ∈ l, (chunkRun cc i).1 = true) → (chunkRun cc kf).1 = false →
      (runChunks cc n (l ++ kf :: post) st).status = .error fatalMsg ∧
      (runChunks cc n (l ++ kf :: post) st).segments =
        trackFrom cc st.segments l := by
  intro l
  induction l with
  | nil =>
    intro kf post st _ hfail
    simp only [List.nil_append, runChunks, hfail]
    constructor
    · rfl
    · rw [foldl_applyEvent_segments]
      exact applyMerges_of_no_merge _ _ (chunkRun_false_no_merge cc kf hfail)
  | cons i l ih =>
    intro kf post st hsucc hfail
    have hi : (chunkRun cc i).1 = true := hsucc i (by simp)
    simp only [List.cons_append, runChunks, hi, if_true]
    have := ih kf post
      { status := ((chunkRun cc i).2.1.foldl applyEvent st).status,
        segments := ((chunkRun cc i).2.1.foldl applyEvent st).segments,
        progress := jsRound ((i + 1 : ℚ) / n * 100) }
      (fun j hj => hsucc j (by simp [hj])) hfail
    constructor
    · exact this.1
    · refine this.2.trans ?_
      simp only [foldl_applyEvent_segments]
      simp [trackFrom]

theorem range_decomp {kf n : Nat} (h : kf < n) :
    List.range n = List.range kf ++ kf :: List.range' (kf + 1) (n - kf - 1) := by
  rw [List.range_eq_range', List.range_eq_range']
  have h2 : List.range' kf (n - kf) = kf :: List.range' (kf + 1) (n - kf - 1) := by
    conv_lhs => rw [show n - kf = (n - kf - 1) + 1 by omega]
    rw [List.range'_succ]
  rw [← h2]
  have h3 := List.range'_append 0 kf (n - kf) 1
  simp only [Nat.zero_add, Nat.one_mul] at h3
  rw [h3, show n - kf + kf = n by omega]

/-- Chunks 0 succeeds with one well-formed segment; every later chunk's
attempts all fail transiently. -/
def ccPartial : Nat → MachineCtx := fun i =>
  if i = 0 then
    { seq := [0, 1, 2, 3], online := fun _ => true,
      outcome := fun _ => .reply
        (.arr [.obj [("start", .num 1), ("end", .num 2), ("text", .str "a")]]),
      offset := 0 }
  else
    { seq := [0, 1, 2, 3], online := fun _ => true,
      outcome := fun _ => .netError "fetch failed", offset := 0 }

/-- The browser is offline for every chunk. -/
def ccOfflineAll : Nat → MachineCtx := fun _ => ctxOffline

/-- Claim C8. When a chunk's dispatch-with-recovery run ends in terminal
failure, the orchestrator aborts the whole pipeline at that chunk: the
status becomes `error` with the fatal message (the run's own last status
update having been `streaming`, so the transition is streaming → error),
the caption track holds exactly the segments merged by the earlier,
successful chunks — unchanged and with nothing discarded — and SRT export
availability depends only on the track, not on the error status. -/
theorem c8_abort_retains_partial_output (duration : ℚ) (cc : Nat → MachineCtx)
    (kf : Nat)
    (hk : kf < (⌈duration / CHUNK_DURATION⌉).toNat)
    (hsucc : ∀ i, i < kf → (chunkRun cc i).1 = true)
    (hfail : (chunkRun cc kf).1 = false)
    (hon : ∀ j, (cc kf).online j = true)
    (hlen : 1 ≤ (cc kf).seq.length) :
    (startProcessing duration cc []).status = .error fatalMsg ∧
    (startProcessing duration cc []).segments = trackFrom cc [] (List.range kf) ∧
    (∀ s0, statusAfter s0 (chunkRun cc kf).2.1 = .streaming) ∧
    (∀ (st : OrchState) (s : StatusTag),
      exportEnabled { st with status := s } = exportEnabled st) := by
  have hdec := range_decomp hk
  have hrun := runChunks_fail cc (⌈duration / CHUNK_DURATION⌉).toNat
    (List.range kf) kf
    (List.range' (kf + 1) ((⌈duration / CHUNK_DURATION⌉).toNat - kf - 1))
    { status := .connecting, segments := [], progress := 0 }
    (fun i hi => hsucc i (List.mem_range.mp hi)) hfail
  refine ⟨?_, ?_, ?_, ?_⟩
  · simp only [startProcessing]
    rw [hdec]
    exact hrun.1
  · simp only [startProcessing]
    rw [hdec]
    exact hrun.2
  · intro s0
    exact runDispatch_false_statusAfter (chunkCtxAt cc kf) hon
      (2 * ((chunkCtxAt cc kf).seq.length - 0) + 1) 0 0 0 s0
      (by show 0 < (cc kf).seq.length; omega) (by simp) hfail
  · intro st s
    rfl

theorem c8_abort_retains_partial_output_witness :
    (startProcessing 900 ccPartial []).status = .error fatalMsg ∧
    (startProcessing 900 ccPartial []).segments =
      trackFrom ccPartial [] (List.range 1) ∧
    (∀ s0, statusAfter s0 (chunkRun ccPartial 1).2.1 = .streaming) ∧
    (∀ (st : OrchState) (s : StatusTag),
      exportEnabled { st with status := s } = exportEnabled st) :=
  c8_abort_retains_partial_output 900 ccPartial 1 (by norm_num [CHUNK_DURATION])
    (fun i hi => by
      have h0 : i = 0 := by omega
      subst h0
      rfl)
    rfl (fun _ => rfl) (by decide)

/-- Claim C10. If the browser reports offline at the moment the
dispatch-with-recovery procedure is entered — at the initial call or at
any re-entry for a retry or failover — the procedure returns failure
immediately with an empty trace: no model is contacted, no analytics
update is recorded, no incident is logged.  Consequently, when the first
chunk is entered offline, the orchestrator aborts the whole pipeline with
the ladder-exhausted fatal error even though no model was ever
attempted. -/
theorem c10_offline_immediate_failure :
    (∀ (ctx : MachineCtx) (g a r k : Nat), ctx.online k = false →
      runDispatch ctx g a r k = (false, [], k)) ∧
    (∀ (duration : ℚ) (cc : Nat → MachineCtx),
      1 ≤ (⌈duration / CHUNK_DURATION⌉).toNat → (cc 0).online 0 = false →
      (startProcessing duration cc []).status = .error fatalMsg ∧
      (startProcessing duration cc []).segments = [] ∧
      chunkRun cc 0 = (false, [], 0)) := by
  have hm : ∀ (ctx : MachineCtx) (g a r k : Nat), ctx.online k = false →
      runDispatch ctx g a r k = (false, [], k) := by
    intro ctx g a r k hoff
    cases g with
    | zero => rfl
    | succ g =>
      by_cases ha : a ≥ ctx.seq.length
      · simp [runDispatch, ha]
      · simp [runDispatch, ha, hoff]
  refine ⟨hm, ?_⟩
  intro duration cc hn hoff
  have hcr : chunkRun cc 0 = (false, [], 0) :=
    hm (chunkCtxAt cc 0) _ 0 0 0 hoff
  have hdec := range_decomp (show 0 < (⌈duration / CHUNK_DURATION⌉).toNat by omega)
  have hrun := runChunks_fail cc (⌈duration / CHUNK_DURATION⌉).toNat
    (List.range 0) 0
    (List.range' 1 ((⌈duration / CHUNK_DURATION⌉).toNat - 0 - 1))
    { status := .connecting, segments := [], progress := 0 }
    (by simp) (by simp [hcr])
  refine ⟨?_, ?_, hcr⟩
  · simp only [startProcessing]
    rw [hdec]
    exact hrun.1
  · simp only [startProcessing]
    rw [hdec]
    simpa [trackFrom] using hrun.2

theorem c10_offline_immediate_failure_witness :
    runDispatch ctxOffline 9 2 1 5 = (false, [], 5) ∧
    (startProcessing 900 ccOfflineAll []).status = .error fatalMsg ∧
    (startProcessing 900 ccOfflineAll []).segments = [] ∧
    chunkRun ccOfflineAll 0 = (false, [], 0) :=
  ⟨c10_offline_immediate_failure.1 ctxOffline 9 2 1 5 rfl,
   (c10_offline_immediate_failure.2 900 ccOfflineAll
      (by norm_num [CHUNK_DURATION]) rfl).1,
   (c10_offline_immediate_failure.2 900 ccOfflineAll
      (by norm_num [CHUNK_DURATION]) rfl).2.1,
   (c10_offline_immediate_failure.2 900 ccOfflineAll
      (by norm_num [CHUNK_DURATION]) rfl).2.2⟩

/-- Claim C7. The chunk plan for a source of length `total` with chunk
duration `cd > 0` has `⌈total / cd⌉` windows, window `i` spanning
`[i·cd, min((i+1)·cd, total))`; a zero-length source yields no windows; and
a 780-second source with 300-second chunks plans exactly the three windows
`[0,300)`, `[300,600)`, `[600,780)`. -/
theorem c7_chunk_planner (total cd : ℚ) (h0 : 0 ≤ total) (hcd : 0 < cd) :
    (chunkPlan total cd).length = (⌈total / cd⌉).toNat ∧
    (∀ i, i < (⌈total / cd⌉).toNat →
      (chunkPlan total cd)[i]? =
        some ((i : ℚ) * cd, min (((i : ℚ) + 1) * cd) total)) ∧
    (total = 0 → chunkPlan total cd = []) ∧
    chunkPlan 780 300 = [(0, 300), (300, 600), (600, 780)] := by
  refine ⟨by simp only [chunkPlan, List.length_map, List.length_range], ?_, ?_, ?_⟩
  · intro i hi
    rw [show ((i : ℚ) + 1) * cd = (i : ℚ) * cd + cd by ring]
    simp only [chunkPlan, List.getElem?_map, List.getElem?_range hi, Option.map_some']
  · intro h
    subst h
    simp [chunkPlan]
  · have h3 : (⌈(780 : ℚ) / 300⌉).toNat = 3 := by
      rw [show (⌈(780 : ℚ) / 300⌉) = 3 by rw [Int.ceil_eq_iff]; norm_num]
      rfl
    simp only [chunkPlan, h3, show List.range 3 = [0, 1, 2] from rfl, List.map_cons,
      List.map_nil]
    norm_num

theorem c7_chunk_planner_witness :
    (0 : ℚ) ≤ 780 ∧ (0 : ℚ) < 300 ∧
    chunkPlan 780 300 = [(0, 300), (300, 600), (600, 780)] :=
  ⟨by norm_num, by norm_num,
   (c7_chunk_planner 780 300 (by norm_num) (by norm_num)).2.2.2⟩

/-! ## SegmentAssembler: merge-order properties -/

/-- Two single-segment chunk results with the same start time. -/
def segTieA : CaptionSegment := { id := 1, start_seconds := 5, end_seconds := 6, text := "a" }

def segTieB : CaptionSegment := { id := 2, start_seconds := 5, end_seconds := 6, text := "b" }

/-- Two single-segment chunk results with distinct start times. -/
def segEarly : CaptionSegment := { id := 1, start_seconds := 1, end_seconds := 2, text := "a" }

def segLate : CaptionSegment := { id := 2, start_seconds := 5, end_seconds := 6, text := "b" }

instance : IsTotal CaptionSegment segLe :=
  ⟨fun a b => le_total a.start_seconds b.start_seconds⟩

instance : IsTrans CaptionSegment segLe :=
  ⟨fun _ _ _ hab hbc => le_trans hab hbc⟩

theorem mergeTrack_perm (p n : List CaptionSegment) :
    (mergeTrack p n).Perm (p ++ n) :=
  List.perm_insertionSort _ _

theorem mergeAll_perm :
    ∀ (c : List (List CaptionSegment)) (init : List CaptionSegment),
      (c.foldl mergeTrack init).Perm (init ++ c.flatten) := by
  intro c
  induction c with
  | nil => intro init; simp
  | cons a c ih =>
    intro init
    refine (ih (mergeTrack init a)).trans ?_
    have h2 := (mergeTrack_perm init a).append_right c.flatten
    simpa using h2

theorem mergeAll_perm_flatten (c : List (List CaptionSegment)) :
    (mergeAll c).Perm c.flatten := by
  simpa [mergeAll] using mergeAll_perm c []

theorem mergeAll_sorted (c : List (List CaptionSegment)) (hc : c ≠ []) :
    (mergeAll c).Sorted segLe := by
  rcases List.eq_nil_or_concat c with rfl | ⟨L, b, rfl⟩
  · exact absurd rfl hc
  · rw [mergeAll, List.concat_eq_append, List.foldl_append]
    exact List.sorted_insertionSort _ _

/-- Claim C5, counterexample. The claim says merging the same per-chunk
results in any completion order yields the same final sequence.  With two
chunks each producing one segment at the same start time, the two
completion orders yield different final sequences (the stable sort breaks
the tie by insertion order, which depends on completion order). -/
theorem c5_counterexample :
    ([[segTieA], [segTieB]] : List (List CaptionSegment)).Perm
      [[segTieB], [segTieA]] ∧
    mergeAll [[segTieA], [segTieB]] ≠ mergeAll [[segTieB], [segTieA]] :=
  ⟨List.Perm.swap _ _ _, by decide⟩

/-- Claim C5, amended. The merge is order-independent whenever no two
segments (across all chunks) share a start time: merging the same
per-chunk results in any completion order then yields the same final
sequence, sorted by start time.  (With ties, the final sequence is still
sorted by start time, but tie order is the insertion order, which depends
on completion order — see `c5_counterexample`.) -/
theorem c5_merge_order_independent (c1 c2 : List (List CaptionSegment))
    (hp : c1.Perm c2)
    (hnd : (c1.flatten.map CaptionSegment.start_seconds).Nodup) :
    mergeAll c1 = mergeAll c2 := by
  rcases eq_or_ne c1 [] with rfl | hne
  · rw [← hp.nil_eq]
  · have hne2 : c2 ≠ [] := by
      intro h
      subst h
      exact hne hp.eq_nil
    have hperm : (mergeAll c1).Perm (mergeAll c2) :=
      (mergeAll_perm_flatten c1).trans
        (hp.flatten.trans (mergeAll_perm_flatten c2).symm)
    have key : ∀ (c : List (List CaptionSegment)), c ≠ [] →
        ((c.flatten.map CaptionSegment.start_seconds).Nodup) →
        (mergeAll c).Pairwise
          (fun a b => a.start_seconds < b.start_seconds) := by
      intro c hcne hcnd
      have hnd' : ((mergeAll c).map CaptionSegment.start_seconds).Nodup := by
        refine (List.Perm.nodup_iff ?_).mpr hcnd
        exact (mergeAll_perm_flatten c).map _
      have hne' : (mergeAll c).Pairwise
          (fun a b => a.start_seconds ≠ b.start_seconds) :=
        List.pairwise_map.mp hnd'
      have hle : (mergeAll c).Pairwise segLe := mergeAll_sorted c hcne
      exact (hle.and hne').imp (fun h => lt_of_le_of_ne h.1 h.2)
    have hnd2 : (c2.flatten.map CaptionSegment.start_seconds).Nodup :=
      (List.Perm.nodup_iff (hp.flatten.map _)).mp hnd
    haveI : IsAntisymm CaptionSegment
        (fun a b => a.start_seconds < b.start_seconds) :=
      ⟨fun _ _ h1 h2 => absurd h2 (lt_asymm h1)⟩
    exact List.eq_of_perm_of_sorted hperm (key c1 hne hnd) (key c2 hne2 hnd2)

theorem c5_merge_order_independent_witness :
    ([[segEarly], [segLate]] : List (List CaptionSegment)).Perm
      [[segLate], [segEarly]] ∧
    mergeAll [[segEarly], [segLate]] = mergeAll [[segLate], [segEarly]] :=
  ⟨List.Perm.swap _ _ _,
   c5_merge_order_independent [[segEarly], [segLate]] [[segLate], [segEarly]]
     (List.Perm.swap _ _ _) (by decide)⟩

/-! ## SRT timestamp arithmetic -/

theorem formatSecondsToSRT_eq_spec (q : ℚ) (h0 : 0 ≤ q) (h1 : q < 86400) :
    formatSecondsToSRT q = srtTimestampSpec q := by
  have hfl : (0 : ℤ) ≤ ⌊q⌋ := Int.floor_nonneg.mpr h0
  have hflt : ⌊q⌋ < 86400 := Int.floor_lt.mpr (by exact_mod_cast h1)
  have hfr0 : (0 : ℚ) ≤ q - ⌊q⌋ := sub_nonneg.mpr (Int.floor_le q)
  have hfr1 : q - ⌊q⌋ < 1 := by
    have := Int.lt_floor_add_one q
    linarith
  have hmsf0 : (0 : ℤ) ≤ ⌊(q - ⌊q⌋) * 1000⌋ :=
    Int.floor_nonneg.mpr (by positivity)
  have hmsf1 : ⌊(q - ⌊q⌋) * 1000⌋ < 1000 := by
    apply Int.floor_lt.mpr
    push_cast
    nlinarith
  have hsplit : ⌊q * 1000⌋ = 1000 * ⌊q⌋ + ⌊(q - ⌊q⌋) * 1000⌋ := by
    have hq : q * 1000 = (q - ⌊q⌋) * 1000 + ((1000 * ⌊q⌋ : ℤ) : ℚ) := by
      push_cast
      ring
    rw [hq, Int.floor_add_int]
    ring
  have e1 : (⌊q * 1000⌋).toNat / 1000 = (⌊q⌋).toNat := by omega
  have e2 : (⌊q⌋).toNat / 3600 % 24 = (⌊q⌋).toNat / 3600 := by omega
  have e3 : (⌊q * 1000⌋).toNat % 1000 = (⌊(q - ⌊q⌋) * 1000⌋).toNat := by omega
  simp only [formatSecondsToSRT, srtTimestampSpec, isoTimePart]
  rw [e1, e2, e3]

/-- Claim C9. SRT serialization of the single segment
`{start = 65.25, end = 67.0, text = "hi"}` produces exactly
`"1\n00:01:05,250 --> 00:01:07,000\nhi\n"`; and in general the
`HH:MM:SS,mmm` timestamps written by `formatSecondsToSRT` (for times
within one day, the range reachable by caption segments of a decodable
source) are exactly the spec's decomposition `srtTimestampSpec`: zero-padded
hours/minutes/seconds of the integral seconds and the three-digit
zero-padded milliseconds of `⌊1000·q⌋`.  Each segment becomes one block
`index\nstart --> end\ntext\n`, 1-based, blocks separated by blank lines
(`generateSRT` joins the blocks with a newline). -/
theorem c9_srt_serialization :
    generateSRT [{ id := 0, start_seconds := 261 / 4, end_seconds := 67,
                   text := "hi" }] =
      "1\n00:01:05,250 --> 00:01:07,000\nhi\n" ∧
    (∀ q : ℚ, 0 ≤ q → q < 86400 →
      formatSecondsToSRT q = srtTimestampSpec q) ∧
    (∀ segments : List CaptionSegment,
      generateSRT segments = String.intercalate "\n"
        (segments.enum.map fun p =>
          toString (p.1 + 1) ++ "\n" ++
          formatSecondsToSRT p.2.start_seconds ++ " --> " ++
          formatSecondsToSRT p.2.end_seconds ++ "\n" ++ p.2.text ++ "\n")) := by
  refine ⟨?_, formatSecondsToSRT_eq_spec, fun _ => rfl⟩
  have hB : (⌊(261 / 4 : ℚ)⌋) = 65 := by norm_num [Int.floor_eq_iff]
  have hA : (⌊(261 / 4 : ℚ) * 1000⌋) = 65250 := by norm_num [Int.floor_eq_iff]
  have hC : (⌊((261 / 4 : ℚ) - ((65 : ℤ) : ℚ)) * 1000⌋) = 250 := by
    norm_num [Int.floor_eq_iff]
  have hD : (⌊(67 : ℚ)⌋) = 67 := by norm_num [Int.floor_eq_iff]
  have hE : (⌊(67 : ℚ) * 1000⌋) = 67000 := by norm_num [Int.floor_eq_iff]
  have hF : (⌊((67 : ℚ) - ((67 : ℤ) : ℚ)) * 1000⌋) = 0 := by
    norm_num [Int.floor_eq_iff]
  have h1 : formatSecondsToSRT (261 / 4) = "00:01:05,250" := by
    simp only [formatSecondsToSRT, isoTimePart]
    rw [hA, hB, hC]
    rfl
  have h2 : formatSecondsToSRT 67 = "00:01:07,000" := by
    simp only [formatSecondsToSRT, isoTimePart]
    rw [hE, hD, hF]
    rfl
  calc generateSRT [{ id := 0, start_seconds := 261 / 4, end_seconds := 67,
                      text := "hi" }]
      = String.intercalate "\n"
          [toString (0 + 1) ++ "\n" ++ formatSecondsToSRT (261 / 4) ++
           " --> " ++ formatSecondsToSRT 67 ++ "\n" ++ "hi" ++ "\n"] := rfl
    _ = "1\n00:01:05,250 --> 00:01:07,000\nhi\n" := by
        rw [h1, h2]
        rfl

theorem c9_srt_serialization_witness :
    (0 : ℚ) ≤ 261 / 4 ∧ (261 / 4 : ℚ) < 86400 ∧
    formatSecondsToSRT (261 / 4) = srtTimestampSpec (261 / 4) :=
  ⟨by norm_num, by norm_num,
   c9_srt_serialization.2.1 (261 / 4) (by norm_num) (by norm_num)⟩

end PhilipAI
